import Mathlib

/-!
Verification of the chainhook predicate-evaluation and replay pipeline.

The Bitcoin replay driver (`scan_bitcoin_chain_with_predicate` and
`execute_predicates_action`, from `components/chainhook-cli/src/scan/bitcoin.rs`)
is embedded shallowly: every external collaborator (RPC fetchers, the ordinal
cache, the block standardiser, the evaluator and the action handler) is a field
of a `ScanEnv` oracle record, and the driver additionally records a trace of
the external calls it makes, so that statements such as "no height in the
range is skipped" or "the fetch-and-cache pipeline is invoked" can be phrased
as membership in the call trace.

The Stacks matcher, evaluator and action compiler live in the sdk crate whose
source is not part of this tree (only its tests are); those definitions are
modelled from the specification and are marked as such in their doc comments.
-/

namespace Chainhook

/-! ### Data model for the Bitcoin replay driver (from src/scan/bitcoin.rs) -/

inductive BitcoinNetwork
  | mainnet
  | testnet
  | regtest
  | signet
deriving DecidableEq, Repr

inductive OrdinalOperations
  | inscriptionFeed
deriving DecidableEq, Repr

inductive Protocols
  | ordinal (op : OrdinalOperations)
deriving DecidableEq, Repr

inductive BitcoinPredicateType
  | block
  | txid (equals : String)
  | protocol (p : Protocols)
deriving DecidableEq, Repr

inductive HookAction
  | noop
  | fileAppend (path : String)
  | httpPost (url : String)
deriving DecidableEq, Repr

structure BitcoinChainhookSpecification where
  uuid : String
  start_block : Option Nat
  end_block : Option Nat
  expire_after_occurrence : Option Nat
  predicate : BitcoinPredicateType
  action : HookAction
deriving DecidableEq, Repr

/-- Modelled from the spec: a full Bitcoin chainhook specification is a map
`network → specification` (§3); the sdk type
`BitcoinChainhookFullSpecification` is not under `src/`. -/
structure BitcoinChainhookFullSpecification where
  networks : List (BitcoinNetwork × BitcoinChainhookSpecification)
deriving DecidableEq, Repr

/-- Modelled from the spec: `into_selected_network_specification` projects the
full specification onto one network and fails with `NoSpecificationForNetwork`
when the requested network is absent (§3); the sdk function is not under
`src/`. -/
def BitcoinChainhookFullSpecification.into_selected_network_specification
    (full : BitcoinChainhookFullSpecification) (network : BitcoinNetwork) :
    Except String BitcoinChainhookSpecification :=
  match full.networks.lookup network with
  | some spec => .ok spec
  | none => .error "NoSpecificationForNetwork"

/-- Opaque stand-in for the raw JSON-RPC block breakdown. -/
structure BitcoinBlockBreakdown where
  raw : String
deriving DecidableEq, Repr

/-- Opaque stand-in for a standardised Bitcoin block. -/
structure BitcoinBlockData where
  raw : String
deriving DecidableEq, Repr

structure BitcoinChainUpdatedWithBlocksData where
  new_blocks : List BitcoinBlockData
  confirmed_blocks : List BitcoinBlockData
deriving DecidableEq, Repr

inductive BitcoinChainEvent
  | chainUpdatedWithBlocks (update : BitcoinChainUpdatedWithBlocksData)
deriving DecidableEq, Repr

/-- A trigger produced by the Bitcoin evaluator for one chainhook. The blocks
and transactions of the trigger play no role in the driver itself (it hands
the trigger to `handle_bitcoin_hook_action`), so the model keeps the fields
the driver-side claims read: the hook's identity and action. -/
structure BitcoinTriggerChainhook where
  chainhook_uuid : String
  action : HookAction
deriving DecidableEq, Repr

structure HttpRequest where
  url : String
  body : String
deriving DecidableEq, Repr

inductive BitcoinChainhookOccurrence
  | http (request : HttpRequest)
  | file (path : String) (bytes : String)
  | data (payload : String)
deriving DecidableEq, Repr

/-- Modelled from the spec: `handle_bitcoin_hook_action` (sdk, not under
`src/`) compiles a trigger into one occurrence — `Noop → Data(payload)`,
`FileAppend{path} → File(path, bytes)`, `HttpPost{url} → Http(request)`
(§4.4). Payload serialisation is abstracted to the hook's uuid. -/
def handle_bitcoin_hook_action (hit : BitcoinTriggerChainhook) :
    Except String BitcoinChainhookOccurrence :=
  match hit.action with
  | .noop => .ok (.data hit.chainhook_uuid)
  | .fileAppend path => .ok (.file path hit.chainhook_uuid)
  | .httpPost url => .ok (.http ⟨url, hit.chainhook_uuid⟩)

/-! ### execute_predicates_action (src/scan/bitcoin.rs lines 244-268)

The Rust loop folds over the hits: a failed `handle_bitcoin_hook_action` is
logged and the loop continues; a successful one increments
`actions_triggered` and dispatches the occurrence, where the `Data` variant
hits `unreachable!()`. The panic is modelled as `none`. -/

def execute_predicates_action_loop
    (handle : BitcoinTriggerChainhook → Except String BitcoinChainhookOccurrence) :
    Nat → List BitcoinTriggerChainhook → Option Nat
  | actions_triggered, [] => some actions_triggered
  | actions_triggered, hit :: rest =>
    match handle hit with
    | .error _ => execute_predicates_action_loop handle actions_triggered rest
    | .ok occurrence =>
      match occurrence with
      | .http _ => execute_predicates_action_loop handle (actions_triggered + 1) rest
      | .file _ _ => execute_predicates_action_loop handle (actions_triggered + 1) rest
      | .data _ => none

def execute_predicates_action
    (handle : BitcoinTriggerChainhook → Except String BitcoinChainhookOccurrence)
    (hits : List BitcoinTriggerChainhook) : Option Nat :=
  execute_predicates_action_loop handle 0 hits

/-! ### The scan driver (src/scan/bitcoin.rs lines 27-242) -/

inductive ScanError
  | rpcClientError
  | missingNetworkSpecification (network : BitcoinNetwork)
  | missingStartBlock
  | chainTipUnavailable
  | cacheReadOpenError
  | cacheWriteOpenError
  | fetchAndCacheError
  | rpcBlockHashError (height : Nat)
  | rpcBlockBreakdownError (height : Nat)
  | blockStandardizationError (message : String)
deriving DecidableEq, Repr

/-- One external call made by the driver, recorded in order. Only block-level
fetch work and the cache backfill are traced; configuration-time work (client
construction, projection, chain-tip query) makes no block fetch. -/
inductive ScanCall
  | fetchBlockHash (height : Nat)
  | fetchBlockBreakdown (height : Nat)
  | standardizeBlock (height : Nat)
  | evaluateBlock (height : Nat)
  | fetchAndCacheBlocks (first_block last_block fan_out : Nat)
deriving DecidableEq, Repr

inductive RunResult
  | panicked
  | failed (e : ScanError)
  | ok (blocks_scanned actions_triggered : Nat)
deriving DecidableEq, Repr

/-- An inscription traversal as stored in the ordinal cache (§4.7): origin
satoshi plus identification, opaque to the driver. -/
structure TraversalResult where
  inscription_id : String
  satoshi : Nat
deriving DecidableEq, Repr

/-- `find_all_inscriptions`: ordered map height → [(txid, traversal)]. -/
abbrev InscriptionsCache := List (Nat × List (String × TraversalResult))

/-- The process-local satoshi-range `Storage` threaded through ordinal
augmentation, opaque to the driver. -/
abbrev OrdinalStorage := List (Nat × Nat)

/-- The external collaborators of `scan_bitcoin_chain_with_predicate`.
`fetchHash`/`fetchBreakdown` are the post-retry results of
`retrieve_block_hash_with_retry` / `retrieve_full_block_breakdown_with_retry`
(`none` = retries exhausted); the cache fields model
`open_readonly_hord_db_conn`, `find_all_inscriptions`,
`find_compacted_block_at_block_height`, `find_latest_compacted_block_known`,
`open_readwrite_hord_db_conn` and `fetch_and_cache_blocks_in_hord_db`
(`inscriptionsAfterCatchup` is what `find_all_inscriptions` returns when
re-read after a successful backfill). -/
structure ScanEnv where
  clientOk : Bool
  fetchHash : Nat → Option String
  fetchBreakdown : String → Option BitcoinBlockBreakdown
  standardize : BitcoinBlockBreakdown → Except String BitcoinBlockData
  evaluate : BitcoinChainEvent → List BitcoinChainhookSpecification →
    List BitcoinTriggerChainhook
  handleAction : BitcoinTriggerChainhook → Except String BitcoinChainhookOccurrence
  chainTip : Option Nat
  openReadonlyOk : Bool
  inscriptionsInitial : InscriptionsCache
  hasCompactedBlockAt : Nat → Bool
  latestCompactedKnown : Nat
  openReadwriteOk : Bool
  fetchAndCacheOk : Bool
  inscriptionsAfterCatchup : InscriptionsCache
  augmentReveal : BitcoinBlockData → OrdinalStorage →
    List (String × TraversalResult) → BitcoinBlockData × OrdinalStorage
  augmentTransfer : BitcoinBlockData → OrdinalStorage →
    BitcoinBlockData × OrdinalStorage

inductive BlockOutcome
  | panicked
  | failed (e : ScanError)
  | ok (actions : Nat)
deriving DecidableEq, Repr

/-- The per-cursor body of the ordinary replay loop (lines 201-234): fetch the
block hash, fetch the breakdown, standardise, wrap the block in a single-block
`ChainUpdatedWithBlocks` event, evaluate the projected hook and run
`execute_predicates_action` on the hits. -/
def process_block_ordinary (env : ScanEnv)
    (specs : List BitcoinChainhookSpecification) (cursor : Nat) :
    BlockOutcome × List ScanCall :=
  match env.fetchHash cursor with
  | none => (.failed (.rpcBlockHashError cursor), [.fetchBlockHash cursor])
  | some block_hash =>
    match env.fetchBreakdown block_hash with
    | none => (.failed (.rpcBlockBreakdownError cursor),
        [.fetchBlockHash cursor, .fetchBlockBreakdown cursor])
    | some block_breakdown =>
      match env.standardize block_breakdown with
      | .error message => (.failed (.blockStandardizationError message),
          [.fetchBlockHash cursor, .fetchBlockBreakdown cursor,
           .standardizeBlock cursor])
      | .ok block =>
        let chain_event := BitcoinChainEvent.chainUpdatedWithBlocks ⟨[block], []⟩
        let hits := env.evaluate chain_event specs
        match execute_predicates_action env.handleAction hits with
        | none => (.panicked,
            [.fetchBlockHash cursor, .fetchBlockBreakdown cursor,
             .standardizeBlock cursor, .evaluateBlock cursor])
        | some n => (.ok n,
            [.fetchBlockHash cursor, .fetchBlockBreakdown cursor,
             .standardizeBlock cursor, .evaluateBlock cursor])

def scan_loop_ordinary (env : ScanEnv)
    (specs : List BitcoinChainhookSpecification) :
    List Nat → Nat → Nat → RunResult × List ScanCall
  | [], blocks_scanned, actions_triggered =>
    (.ok blocks_scanned actions_triggered, [])
  | cursor :: rest, blocks_scanned, actions_triggered =>
    match process_block_ordinary env specs cursor with
    | (.failed e, calls) => (.failed e, calls)
    | (.panicked, calls) => (.panicked, calls)
    | (.ok n, calls) =>
      let next := scan_loop_ordinary env specs rest (blocks_scanned + 1)
        (actions_triggered + n)
      (next.1, calls ++ next.2)

/-- The per-cursor body of the ordinal-aware loop (lines 156-192): the same
pipeline, with the block augmented with inscription reveal and transfer data
(threading the process-local storage) before evaluation. -/
def process_block_ordinal (env : ScanEnv)
    (specs : List BitcoinChainhookSpecification)
    (traversals : List (String × TraversalResult))
    (storage : OrdinalStorage) (cursor : Nat) :
    (BlockOutcome × OrdinalStorage) × List ScanCall :=
  match env.fetchHash cursor with
  | none => ((.failed (.rpcBlockHashError cursor), storage),
      [.fetchBlockHash cursor])
  | some block_hash =>
    match env.fetchBreakdown block_hash with
    | none => ((.failed (.rpcBlockBreakdownError cursor), storage),
        [.fetchBlockHash cursor, .fetchBlockBreakdown cursor])
    | some block_breakdown =>
      match env.standardize block_breakdown with
      | .error message => ((.failed (.blockStandardizationError message), storage),
          [.fetchBlockHash cursor, .fetchBlockBreakdown cursor,
           .standardizeBlock cursor])
      | .ok block =>
        let revealed := env.augmentReveal block storage traversals
        let transferred := env.augmentTransfer revealed.1 revealed.2
        let chain_event :=
          BitcoinChainEvent.chainUpdatedWithBlocks ⟨[transferred.1], []⟩
        let hits := env.evaluate chain_event specs
        match execute_predicates_action env.handleAction hits with
        | none => ((.panicked, transferred.2),
            [.fetchBlockHash cursor, .fetchBlockBreakdown cursor,
             .standardizeBlock cursor, .evaluateBlock cursor])
        | some n => ((.ok n, transferred.2),
            [.fetchBlockHash cursor, .fetchBlockBreakdown cursor,
             .standardizeBlock cursor, .evaluateBlock cursor])

/-- The ordinal-aware loop (lines 146-193) iterates the entries of the
inscription cache, skipping entries outside `[start_block, end_block]`,
accumulating the traversals of processed entries. -/
def scan_loop_ordinal (env : ScanEnv)
    (specs : List BitcoinChainhookSpecification)
    (start_block end_block : Nat) :
    InscriptionsCache → List (String × TraversalResult) → OrdinalStorage →
    Nat → Nat → RunResult × List ScanCall
  | [], _, _, blocks_scanned, actions_triggered =>
    (.ok blocks_scanned actions_triggered, [])
  | (cursor, local_traversals) :: rest, traversals, storage,
      blocks_scanned, actions_triggered =>
    if cursor < start_block || cursor > end_block then
      scan_loop_ordinal env specs start_block end_block rest traversals storage
        blocks_scanned actions_triggered
    else
      match process_block_ordinal env specs (traversals ++ local_traversals)
          storage cursor with
      | ((.failed e, _), calls) => (.failed e, calls)
      | ((.panicked, _), calls) => (.panicked, calls)
      | ((.ok n, storage), calls) =>
        let next := scan_loop_ordinal env specs start_block end_block rest
          (traversals ++ local_traversals) storage (blocks_scanned + 1)
          (actions_triggered + n)
        (next.1, calls ++ next.2)

structure OrdinalSetup where
  inscriptions_cache : InscriptionsCache
  is_predicate_evaluating_ordinals : Bool
  hord_blocks_requires_update : Bool
deriving Repr

/-- Lines 79-92: when the predicate is ordinal-aware and the cache opens
read-only, load all inscriptions and check whether the compacted block at
`end_block` is present. -/
def ordinal_setup (env : ScanEnv)
    (predicate_spec : BitcoinChainhookSpecification) (end_block : Nat) :
    OrdinalSetup :=
  match predicate_spec.predicate with
  | .protocol (.ordinal _) =>
    if env.openReadonlyOk then
      { inscriptions_cache := env.inscriptionsInitial
        is_predicate_evaluating_ordinals := true
        hord_blocks_requires_update := !env.hasCompactedBlockAt end_block }
    else
      { inscriptions_cache := []
        is_predicate_evaluating_ordinals := true
        hord_blocks_requires_update := false }
  | _ =>
    { inscriptions_cache := []
      is_predicate_evaluating_ordinals := false
      hord_blocks_requires_update := false }

/-- Lines 94-130: the catch-up phase. Entered only when the predicate is
ordinal-aware AND the loaded inscription cache is empty; then, if the blocks
table needs updating, compute the latest known compacted height and, when it
is below `end_block`, open a read-write handle and run
`fetch_and_cache_blocks_in_hord_db` with fan-out 8, then re-read the
inscriptions. -/
def ordinal_catchup (env : ScanEnv) (setup : OrdinalSetup) (end_block : Nat) :
    Except ScanError InscriptionsCache × List ScanCall :=
  if setup.is_predicate_evaluating_ordinals && setup.inscriptions_cache.isEmpty then
    if setup.hord_blocks_requires_update then
      if !env.openReadonlyOk then (.error .cacheReadOpenError, [])
      else
        if env.latestCompactedKnown < end_block then
          if !env.openReadwriteOk then (.error .cacheWriteOpenError, [])
          else if !env.fetchAndCacheOk then
            (.error .fetchAndCacheError,
             [.fetchAndCacheBlocks env.latestCompactedKnown end_block 8])
          else
            (.ok env.inscriptionsAfterCatchup,
             [.fetchAndCacheBlocks env.latestCompactedKnown end_block 8])
        else (.ok setup.inscriptions_cache, [])
    else (.ok setup.inscriptions_cache, [])
  else (.ok setup.inscriptions_cache, [])

/-- Lines 77-241: everything after start/end resolution — ordinal setup,
catch-up, then either the ordinal-aware loop over the inscription cache or the
ordinary loop over every height in `[start_block, end_block]`. -/
def scan_with_range (env : ScanEnv)
    (predicate_spec : BitcoinChainhookSpecification)
    (start_block end_block : Nat) : RunResult × List ScanCall :=
  match ordinal_catchup env (ordinal_setup env predicate_spec end_block)
      end_block with
  | (.error e, calls) => (.failed e, calls)
  | (.ok inscriptions_cache, calls) =>
    if (ordinal_setup env predicate_spec end_block).is_predicate_evaluating_ordinals then
      if !env.openReadonlyOk then (.failed .cacheReadOpenError, calls)
      else
        let next := scan_loop_ordinal env [predicate_spec] start_block end_block
          inscriptions_cache [] [] 0 0
        (next.1, calls ++ next.2)
    else
      let next := scan_loop_ordinary env [predicate_spec]
        (List.range' start_block (end_block + 1 - start_block)) 0 0
      (next.1, calls ++ next.2)

/-- Lines 27-75: RPC client construction, projection onto the configured
network, `start_block` resolution (required) and `end_block` resolution (from
the spec, or by querying the chain tip). -/
def scan_bitcoin_chain_with_predicate (env : ScanEnv)
    (predicate : BitcoinChainhookFullSpecification)
    (network : BitcoinNetwork) : RunResult × List ScanCall :=
  if !env.clientOk then (.failed .rpcClientError, [])
  else
    match predicate.into_selected_network_specification network with
    | .error _ => (.failed (.missingNetworkSpecification network), [])
    | .ok predicate_spec =>
      match predicate_spec.start_block with
      | none => (.failed .missingStartBlock, [])
      | some start_block =>
        match predicate_spec.end_block with
        | some end_block => scan_with_range env predicate_spec start_block end_block
        | none =>
          match env.chainTip with
          | none => (.failed .chainTipUnavailable, [])
          | some end_block => scan_with_range env predicate_spec start_block end_block

/-! ### Stacks predicate matcher, evaluator and action compiler

The sdk sources for these (`chainhooks/stacks.rs`, `chainhooks/types.rs`) are
not part of this tree — only their tests are (`chainhooks/tests/mod.rs`) — so
the definitions below are modelled from the specification, with the §9 open
questions taken as the description of current behaviour. -/

inductive StacksNetwork
  | mainnet
  | testnet
  | devnet
  | simnet
deriving DecidableEq, Repr

inductive StacksTransactionEvent
  | stxMint (amount : Nat)
  | stxTransfer (amount : Nat)
  | stxLock (amount : Nat)
  | stxBurn (amount : Nat)
  | ftMint (asset_identifier : String) (amount : Nat)
  | ftTransfer (asset_identifier : String) (amount : Nat)
  | ftBurn (asset_identifier : String) (amount : Nat)
  | nftMint (asset_identifier : String)
  | nftTransfer (asset_identifier : String)
  | nftBurn (asset_identifier : String)
  | smartContractEvent (contract_identifier : String) (topic : String) (value : String)
deriving DecidableEq, Repr

inductive StacksTransactionKind
  | contractCall (contract_identifier : String) (method : String)
  | contractDeployment (deployer : String)
  | other
deriving DecidableEq, Repr

structure StacksTransactionData where
  txid : String
  kind : StacksTransactionKind
  events : List StacksTransactionEvent
deriving DecidableEq, Repr

structure BlockIdentifier where
  index : Nat
  hash : String
deriving DecidableEq, Repr

structure StacksBlockData where
  block_identifier : BlockIdentifier
  transactions : List StacksTransactionData
deriving DecidableEq, Repr

inductive StacksPredicate
  | txidEquals (txid : String)
  | contractCall (contract_identifier : String) (method : String)
  | ftEvent (asset_identifier : String) (actions : List String)
  | nftEvent (asset_identifier : String) (actions : List String)
  | stxEvent (actions : List String)
deriving DecidableEq, Repr

structure StacksChainhookSpecification where
  uuid : String
  network : StacksNetwork
  blocks : Option (List Nat)
  start_block : Option Nat
  end_block : Option Nat
  expire_after_occurrence : Option Nat
  capture_all_events : Option Bool
  decode_clarity_values : Option Bool
  predicate : StacksPredicate
  action : HookAction
  enabled : Bool
deriving DecidableEq, Repr

/-- Modelled from the spec: the Stacks per-transaction matcher (sdk
`evaluate_stacks_predicate_on_transaction`, not under `src/`). §4.2:
`Txid{equals}` is string-equal on the txid; `ContractCall` matches a direct
contract call with equal callee (wildcard allowed) and method; `FtEvent` /
`NftEvent` match any event of that family whose asset matches (wildcard
allowed) and whose action is in the set; `StxEvent` matches any STX event
whose action is in the set — except that, per the §9 open question
("Stx `burn` event support is marked ignored in the source; current behaviour
is do not match", corroborated by the `#[ignore]`d `stx_burn` test case in
`chainhooks/tests/mod.rs`), an `stx_burn` event never matches. -/
def stacks_predicate_matches (predicate : StacksPredicate)
    (tx : StacksTransactionData) : Bool :=
  match predicate with
  | .txidEquals t => tx.txid == t
  | .contractCall contract_identifier method =>
    match tx.kind with
    | .contractCall callee callee_method =>
      (contract_identifier == callee || contract_identifier == "*") &&
        method == callee_method
    | _ => false
  | .ftEvent asset_identifier actions => tx.events.any fun event =>
      match event with
      | .ftMint a _ => (asset_identifier == a || asset_identifier == "*") &&
          actions.contains "mint"
      | .ftTransfer a _ => (asset_identifier == a || asset_identifier == "*") &&
          actions.contains "transfer"
      | .ftBurn a _ => (asset_identifier == a || asset_identifier == "*") &&
          actions.contains "burn"
      | _ => false
  | .nftEvent asset_identifier actions => tx.events.any fun event =>
      match event with
      | .nftMint a => (asset_identifier == a || asset_identifier == "*") &&
          actions.contains "mint"
      | .nftTransfer a => (asset_identifier == a || asset_identifier == "*") &&
          actions.contains "transfer"
      | .nftBurn a => (asset_identifier == a || asset_identifier == "*") &&
          actions.contains "burn"
      | _ => false
  | .stxEvent actions => tx.events.any fun event =>
      match event with
      | .stxMint _ => actions.contains "mint"
      | .stxTransfer _ => actions.contains "transfer"
      | .stxLock _ => actions.contains "lock"
      | _ => false

/-- Modelled from the spec: per-block gating (§4.2): the block height must be
within the hook's `[start_block, end_block]` range and pass the optional
`blocks` allow-list. -/
def stacks_block_in_range (spec : StacksChainhookSpecification)
    (height : Nat) : Bool :=
  (match spec.start_block with
   | none => true
   | some s => decide (s ≤ height)) &&
  (match spec.end_block with
   | none => true
   | some e => decide (height ≤ e)) &&
  (match spec.blocks with
   | none => true
   | some allowed => allowed.contains height)

/-- The transactions of one block matching a hook: empty when the block is
gated out, otherwise the predicate filter in on-chain order. -/
def stacks_matching_transactions (spec : StacksChainhookSpecification)
    (block : StacksBlockData) : List StacksTransactionData :=
  if stacks_block_in_range spec block.block_identifier.index then
    block.transactions.filter (stacks_predicate_matches spec.predicate)
  else []

structure StacksChainUpdatedWithBlocksData where
  new_blocks : List StacksBlockData
deriving DecidableEq, Repr

structure StacksChainUpdatedWithReorgData where
  blocks_to_rollback : List StacksBlockData
  blocks_to_apply : List StacksBlockData
deriving DecidableEq, Repr

inductive StacksChainEvent
  | chainUpdatedWithBlocks (update : StacksChainUpdatedWithBlocksData)
  | chainUpdatedWithReorg (update : StacksChainUpdatedWithReorgData)
deriving DecidableEq, Repr

structure StacksTriggerChainhook where
  chainhook : StacksChainhookSpecification
  apply : List (List StacksTransactionData × StacksBlockData)
  rollback : List (List StacksTransactionData × StacksBlockData)
deriving DecidableEq, Repr

/-- Modelled from the spec (§4.3 steps a-c): walk the rollback blocks and the
apply blocks in input order, pushing `(matching transactions, block)` for each
block with a non-empty match. -/
def stacks_hook_lists (spec : StacksChainhookSpecification)
    (event : StacksChainEvent) :
    List (List StacksTransactionData × StacksBlockData) ×
      List (List StacksTransactionData × StacksBlockData) :=
  let gather := fun (blocks : List StacksBlockData) =>
    (blocks.map fun b => (stacks_matching_transactions spec b, b)).filter
      fun entry => !entry.1.isEmpty
  match event with
  | .chainUpdatedWithBlocks update => (gather update.new_blocks, [])
  | .chainUpdatedWithReorg update =>
    (gather update.blocks_to_apply, gather update.blocks_to_rollback)

/-- The process-local occurrence bookkeeping for one hook (§3): the counter is
keyed by the hook and survives across events; `expired` permanently disables
the hook. -/
structure StacksHookState where
  spec : StacksChainhookSpecification
  occurrence_counter : Nat
  expired : Bool
deriving DecidableEq, Repr

/-- Modelled from the spec (§4.3 steps d-e and §3): a disabled or expired hook
emits nothing; otherwise, when the apply or rollback list is non-empty, one
trigger is emitted, the occurrence counter is incremented once per trigger
emission (not per matching transaction), and the expiry check runs after the
increment — reaching `expire_after_occurrence` marks the hook expired. -/
def evaluate_hook_on_event (st : StacksHookState) (event : StacksChainEvent) :
    Option StacksTriggerChainhook × StacksHookState :=
  if st.expired || !st.spec.enabled then (none, st)
  else
    let lists := stacks_hook_lists st.spec event
    if lists.1.isEmpty && lists.2.isEmpty then (none, st)
    else
      let counter := st.occurrence_counter + 1
      let expired :=
        match st.spec.expire_after_occurrence with
        | none => false
        | some k => decide (k ≤ counter)
      (some ⟨st.spec, lists.1, lists.2⟩,
       { st with occurrence_counter := counter, expired := expired })

/-- The lifetime of one hook under the evaluator: fold
`evaluate_hook_on_event` over a sequence of chain events, collecting the
emitted triggers. -/
def run_stacks_hook :
    StacksHookState → List StacksChainEvent →
    List StacksTriggerChainhook × StacksHookState
  | st, [] => ([], st)
  | st, event :: rest =>
    let step := evaluate_hook_on_event st event
    let next := run_stacks_hook step.2 rest
    (step.1.toList ++ next.1, next.2)

/-- Modelled from the spec: `evaluate_stacks_chainhooks_on_chain_event` (sdk,
not under `src/`) evaluates one chain event against a hook list in order,
with counters seeded at zero, producing the triggers (§4.3). -/
def evaluate_stacks_chainhooks_on_chain_event (event : StacksChainEvent)
    (hooks : List StacksChainhookSpecification) :
    List StacksTriggerChainhook :=
  hooks.filterMap fun spec => (evaluate_hook_on_event ⟨spec, 0, false⟩ event).1

/-- One block entry of the occurrence payload (§6): the block identifier plus
the matched transactions. -/
structure StacksOccurrencePayloadBlock where
  block_identifier : BlockIdentifier
  transactions : List StacksTransactionData
deriving DecidableEq, Repr

structure StacksOccurrencePayload where
  apply : List StacksOccurrencePayloadBlock
  rollback : List StacksOccurrencePayloadBlock
  chainhook_uuid : String
deriving DecidableEq, Repr

inductive StacksChainhookOccurrence
  | http (request : HttpRequest)
  | file (path : String) (bytes : String)
  | data (payload : StacksOccurrencePayload)
deriving DecidableEq, Repr

def stacks_occurrence_payload (trigger : StacksTriggerChainhook) :
    StacksOccurrencePayload :=
  { apply := trigger.apply.map fun entry => ⟨entry.2.block_identifier, entry.1⟩
    rollback := trigger.rollback.map fun entry => ⟨entry.2.block_identifier, entry.1⟩
    chainhook_uuid := trigger.chainhook.uuid }

/-- Modelled from the spec: `handle_stacks_hook_action` (sdk, not under
`src/`) compiles a trigger into one occurrence (§4.4): `Noop → Data(payload)`,
`FileAppend{path} → File(path, bytes)`, `HttpPost{url} → Http(request)`, where
the payload carries the apply/rollback block identifiers with the matched
transactions and the chainhook uuid (§6). The JSON serialisation of the
payload for the file and http bodies is abstracted to the uuid. -/
def handle_stacks_hook_action (trigger : StacksTriggerChainhook) :
    Option StacksChainhookOccurrence :=
  let payload := stacks_occurrence_payload trigger
  match trigger.chainhook.action with
  | .noop => some (.data payload)
  | .fileAppend path => some (.file path payload.chainhook_uuid)
  | .httpPost url => some (.http ⟨url, payload.chainhook_uuid⟩)

/-! ### Concrete fixtures -/

/-- A hook skeleton mirroring the test fixtures of
`chainhooks/tests/mod.rs`: no range, no allow-list, no expiry, `Noop`
action, enabled. -/
def mk_stacks_hook (p : StacksPredicate) : StacksChainhookSpecification :=
  { uuid := "hook-1", network := .testnet, blocks := none, start_block := none,
    end_block := none, expire_after_occurrence := none,
    capture_all_events := none, decode_clarity_values := none,
    predicate := p, action := .noop, enabled := true }

def ft_mint_tx : StacksTransactionData :=
  { txid := "0xf1", kind := .other, events := [.ftMint "asset-id" 100] }

def stx_mint_tx : StacksTransactionData :=
  { txid := "0xs1", kind := .other, events := [.stxMint 100] }

def stx_burn_tx : StacksTransactionData :=
  { txid := "0xs2", kind := .other, events := [.stxBurn 100] }

def stacks_block_of (txs : List StacksTransactionData) : StacksBlockData :=
  ⟨⟨1, "0xb1"⟩, txs⟩

def stacks_expiry_hook : StacksChainhookSpecification :=
  { mk_stacks_hook (.stxEvent ["mint"]) with expire_after_occurrence := some 1 }

def stx_mint_event_sample : StacksChainEvent :=
  .chainUpdatedWithBlocks ⟨[stacks_block_of [stx_mint_tx]]⟩

def contract_call_tx : StacksTransactionData :=
  { txid := "0xb92c2ade84a8b85f4c72170680ae42e65438aea4db72ba4b2d6a6960f4141ce8"
    kind := .contractCall "ST13F481SBR0R7Z6NMMH8YV2FJJYXA5JPA0AD3HP9.subnet-v1"
      "commit-block"
    events := [] }

def contract_call_block : StacksBlockData :=
  ⟨⟨100, "0xblockhash100"⟩, [contract_call_tx]⟩

def txid_noop_hook : StacksChainhookSpecification :=
  mk_stacks_hook
    (.txidEquals "0xb92c2ade84a8b85f4c72170680ae42e65438aea4db72ba4b2d6a6960f4141ce8")

/-- The amended C7 action semantics, written from the spec's words: a mint,
transfer or lock STX event matches when its action is in the set; a burn STX
event never matches. -/
def stx_action_matches_spec (actions : List String)
    (event : StacksTransactionEvent) : Bool :=
  match event with
  | .stxMint _ => actions.contains "mint"
  | .stxTransfer _ => actions.contains "transfer"
  | .stxLock _ => actions.contains "lock"
  | _ => false

/-- A benign oracle environment: the RPC client constructs, every fetch and
standardisation succeeds, the evaluator finds no hits, and the ordinal cache
is open, empty and up to date. -/
def base_oracles_env : ScanEnv :=
  { clientOk := true
    fetchHash := fun _ => some "0xhash"
    fetchBreakdown := fun _ => some ⟨"breakdown"⟩
    standardize := fun _ => .ok ⟨"block"⟩
    evaluate := fun _ _ => []
    handleAction := fun hit => handle_bitcoin_hook_action hit
    chainTip := some 6
    openReadonlyOk := true
    inscriptionsInitial := []
    hasCompactedBlockAt := fun _ => true
    latestCompactedKnown := 0
    openReadwriteOk := true
    fetchAndCacheOk := true
    inscriptionsAfterCatchup := []
    augmentReveal := fun b st _ => (b, st)
    augmentTransfer := fun b st => (b, st) }

/-- An ordinal cache holding inscriptions only at height 5. -/
def c1_env : ScanEnv :=
  { base_oracles_env with inscriptionsInitial := [(5, [("0xtx5", ⟨"i0", 0⟩)])] }

def sample_ordinal_spec : BitcoinChainhookSpecification :=
  { uuid := "ord-hook", start_block := some 5, end_block := some 6,
    expire_after_occurrence := none,
    predicate := .protocol (.ordinal .inscriptionFeed),
    action := .httpPost "http://sink" }

def sample_ordinal_full : BitcoinChainhookFullSpecification :=
  ⟨[(.mainnet, sample_ordinal_spec)]⟩

/-- An ordinal cache with inscriptions at height 5 whose compacted-blocks
table does not contain `end_block`. -/
def c2_env : ScanEnv :=
  { c1_env with hasCompactedBlockAt := fun _ => false }

/-- An empty, stale ordinal cache: catch-up applies, and re-reading after the
backfill yields an inscription at height 5. -/
def c2_catchup_env : ScanEnv :=
  { base_oracles_env with
    hasCompactedBlockAt := fun _ => false
    latestCompactedKnown := 2
    inscriptionsAfterCatchup := [(5, [("0xtx5", ⟨"i0", 0⟩)])] }

def sample_txid_spec : BitcoinChainhookSpecification :=
  { uuid := "tx-hook", start_block := some 2, end_block := some 3,
    expire_after_occurrence := none, predicate := .txid "0xabc",
    action := .httpPost "http://sink" }

def sample_txid_full : BitcoinChainhookFullSpecification :=
  ⟨[(.mainnet, sample_txid_spec)]⟩

def empty_full : BitcoinChainhookFullSpecification := ⟨[]⟩

/-- Block-hash retries exhaust at height 3. -/
def c5_env : ScanEnv :=
  { base_oracles_env with
    fetchHash := fun h => if h == 3 then none else some "0xhash" }

/-- An action handler that fails on the hook with uuid `"bad"`. -/
def failing_handle (hit : BitcoinTriggerChainhook) :
    Except String BitcoinChainhookOccurrence :=
  if hit.chainhook_uuid == "bad" then .error "unable to handle action"
  else .ok (.http ⟨"http://sink", hit.chainhook_uuid⟩)

def bad_hit : BitcoinTriggerChainhook := ⟨"bad", .httpPost "http://sink"⟩

def good_hit : BitcoinTriggerChainhook := ⟨"good", .httpPost "http://sink"⟩

def noop_hit : BitcoinTriggerChainhook := ⟨"hook-noop", .noop⟩

/-! ## Theorems -/

/-! ### Evaluator occurrence-expiry (C3) -/

theorem run_stacks_hook_expired (events : List StacksChainEvent) :
    ∀ st : StacksHookState, st.expired = true →
      (run_stacks_hook st events).1 = [] := by
  induction events with
  | nil => intro st _; rfl
  | cons ev rest ih =>
    intro st hexp
    have hstep : evaluate_hook_on_event st ev = (none, st) := by
      simp [evaluate_hook_on_event, hexp]
    simp [run_stacks_hook, hstep, ih st hexp]

theorem evaluate_hook_on_event_cases (st : StacksHookState)
    (ev : StacksChainEvent) :
    evaluate_hook_on_event st ev = (none, st) ∨
    (st.expired = false ∧
     evaluate_hook_on_event st ev =
       (some ⟨st.spec, (stacks_hook_lists st.spec ev).1,
          (stacks_hook_lists st.spec ev).2⟩,
        ⟨st.spec, st.occurrence_counter + 1,
         match st.spec.expire_after_occurrence with
         | none => false
         | some k => decide (k ≤ st.occurrence_counter + 1)⟩)) := by
  rw [evaluate_hook_on_event]
  by_cases h1 : (st.expired || !st.spec.enabled) = true
  · left; simp [h1]
  · by_cases h2 : ((stacks_hook_lists st.spec ev).1.isEmpty &&
        (stacks_hook_lists st.spec ev).2.isEmpty) = true
    · left; simp [h1, h2]
    · right
      refine ⟨?_, ?_⟩
      · revert h1; cases hst : st.expired <;> simp
      · simp [h1, h2]

theorem run_stacks_hook_length_bound (k : Nat) (events : List StacksChainEvent) :
    ∀ st : StacksHookState,
      st.spec.expire_after_occurrence = some k →
      st.expired = false → st.occurrence_counter < k →
      (run_stacks_hook st events).1.length ≤ k - st.occurrence_counter := by
  induction events with
  | nil => intro st _ _ _; simp [run_stacks_hook]
  | cons ev rest ih =>
    intro st hk hexp hlt
    rcases evaluate_hook_on_event_cases st ev with hstep | ⟨-, hstep⟩
    · rw [run_stacks_hook]
      simp only [hstep, Option.toList_none, List.nil_append]
      exact ih st hk hexp hlt
    · rw [run_stacks_hook]
      simp only [hstep, hk, Option.toList_some, List.singleton_append,
        List.length_cons]
      by_cases hreach : k ≤ st.occurrence_counter + 1
      · have hdec : decide (k ≤ st.occurrence_counter + 1) = true := by
          simpa using hreach
        rw [hdec]
        have hrest := run_stacks_hook_expired rest
          ⟨st.spec, st.occurrence_counter + 1, true⟩ rfl
        rw [hrest]
        simp only [List.length_nil]
        omega
      · have hdec : decide (k ≤ st.occurrence_counter + 1) = false := by
          simpa using hreach
        rw [hdec]
        have hlt2 : (⟨st.spec, st.occurrence_counter + 1, false⟩ :
            StacksHookState).occurrence_counter < k := by
          show st.occurrence_counter + 1 < k
          omega
        have hrest := ih ⟨st.spec, st.occurrence_counter + 1, false⟩
          hk rfl hlt2
        have hproj : (⟨st.spec, st.occurrence_counter + 1, false⟩ :
            StacksHookState).occurrence_counter = st.occurrence_counter + 1 := rfl
        rw [hproj] at hrest
        omega

/-- C3: a hook with `expire_after_occurrence = k` (k positive) emits at most
`k` triggers across any sequence of chain events the evaluator processes; the
occurrence counter advances by exactly one per trigger emission (never per
matching transaction); and an expired hook emits nothing ever after. -/
theorem C3_expire_after_occurrence_bound
    (spec : StacksChainhookSpecification) (k : Nat)
    (hk : spec.expire_after_occurrence = some k) (hpos : 0 < k) :
    (∀ events, (run_stacks_hook ⟨spec, 0, false⟩ events).1.length ≤ k) ∧
    (∀ st ev, (evaluate_hook_on_event st ev).2.occurrence_counter =
      st.occurrence_counter + (evaluate_hook_on_event st ev).1.toList.length) ∧
    (∀ st events, st.expired = true → (run_stacks_hook st events).1 = []) := by
  refine ⟨?_, ?_, ?_⟩
  · intro events
    have := run_stacks_hook_length_bound k events ⟨spec, 0, false⟩ hk rfl hpos
    simpa using this
  · intro st ev
    rw [evaluate_hook_on_event]
    by_cases hskip : (st.expired || !st.spec.enabled) = true
    · simp [hskip]
    · simp only [hskip, Bool.false_eq_true, if_false]
      by_cases hempty :
          ((stacks_hook_lists st.spec ev).1.isEmpty &&
            (stacks_hook_lists st.spec ev).2.isEmpty) = true
      · simp [hempty]
      · simp [hempty]
  · intro st events hexp
    exact run_stacks_hook_expired events st hexp

theorem C3_witness :
    stacks_expiry_hook.expire_after_occurrence = some 1 ∧ 0 < 1 ∧
    (run_stacks_hook ⟨stacks_expiry_hook, 0, false⟩
      [stx_mint_event_sample, stx_mint_event_sample]).1.length ≤ 1 :=
  ⟨rfl, Nat.zero_lt_one,
    (C3_expire_after_occurrence_bound stacks_expiry_hook 1 rfl Nat.zero_lt_one).1
      [stx_mint_event_sample, stx_mint_event_sample]⟩

/-! ### Stx burn events (C7) -/

/-- C7 counterexample: an `stx_burn` event does not match a `StxEvent`
predicate whose action set contains `"burn"` — the matcher yields `false` on
the transaction and the evaluator produces no trigger for the block. -/
theorem C7_counterexample :
    stacks_predicate_matches (.stxEvent ["burn"]) stx_burn_tx = false ∧
    evaluate_stacks_chainhooks_on_chain_event
      (.chainUpdatedWithBlocks ⟨[stacks_block_of [stx_burn_tx]]⟩)
      [mk_stacks_hook (.stxEvent ["burn"])] = [] := by
  decide

/-- C7 amended: a `StxEvent` predicate matches a transaction exactly when the
transaction carries some STX event whose action is in the predicate's action
set, where the actions effective for matching are `mint`, `transfer` and
`lock`; an `stx_burn` event never matches (burn support is marked ignored in
the source). -/
theorem C7_amended_stx_event_actions (actions : List String)
    (tx : StacksTransactionData) :
    stacks_predicate_matches (.stxEvent actions) tx =
      tx.events.any (stx_action_matches_spec actions) ∧
    ∀ amount, stx_action_matches_spec actions (.stxBurn amount) = false := by
  constructor
  · rcases tx with ⟨txid, kind, events⟩
    simp only [stacks_predicate_matches]
    induction events with
    | nil => rfl
    | cons e es ih =>
      simp only [List.any_cons, ih]
      cases e <;> rfl
  · intro amount; rfl

/-! ### FT event with wrong asset (C8) -/

/-- C8: evaluating an `FtEvent{asset_identifier, actions:["mint"]}` predicate
against a chain event of one block with one transaction carrying an `ft_mint`
event for a different asset (and the predicate's asset is not the wildcard)
produces zero triggers. -/
theorem C8_ft_wrong_asset_no_trigger
    (asset wrong txid : String) (amount : Nat) (bid : BlockIdentifier)
    (hook : StacksChainhookSpecification)
    (hpred : hook.predicate = .ftEvent wrong ["mint"])
    (hw1 : wrong ≠ asset) (hw2 : wrong ≠ "*") :
    evaluate_stacks_chainhooks_on_chain_event
      (.chainUpdatedWithBlocks ⟨[⟨bid, [⟨txid, .other, [.ftMint asset amount]⟩]⟩]⟩)
      [hook] = [] := by
  have h1 : (wrong == asset) = false := beq_eq_false_iff_ne.mpr hw1
  have h2 : (wrong == "*") = false := beq_eq_false_iff_ne.mpr hw2
  have hmatch : stacks_predicate_matches hook.predicate
      ⟨txid, .other, [.ftMint asset amount]⟩ = false := by
    rw [hpred]
    simp [stacks_predicate_matches, h1, h2]
  simp [evaluate_stacks_chainhooks_on_chain_event, evaluate_hook_on_event,
    stacks_hook_lists, stacks_matching_transactions, hmatch]

theorem C8_witness :
    (mk_stacks_hook (.ftEvent "wrong-id" ["mint"])).predicate =
      .ftEvent "wrong-id" ["mint"] ∧
    ("wrong-id" : String) ≠ "asset-id" ∧ ("wrong-id" : String) ≠ "*" ∧
    evaluate_stacks_chainhooks_on_chain_event
      (.chainUpdatedWithBlocks
        ⟨[⟨⟨1, "0xb1"⟩, [⟨"0xf1", .other, [.ftMint "asset-id" 100]⟩]⟩]⟩)
      [mk_stacks_hook (.ftEvent "wrong-id" ["mint"])] = [] :=
  ⟨rfl, by decide, by decide,
    C8_ft_wrong_asset_no_trigger "asset-id" "wrong-id" "0xf1" 100 ⟨1, "0xb1"⟩
      (mk_stacks_hook (.ftEvent "wrong-id" ["mint"])) rfl (by decide) (by decide)⟩

/-! ### Noop action compiles to a Data occurrence (C9) -/

/-- C9: for a trigger of a `Txid{Equals}` hook whose action is `Noop` and
whose apply side holds one block, `handle_stacks_hook_action` returns a `Data`
occurrence whose apply list has length 1 and whose first entry's
`block_identifier.hash` equals the input apply block's hash. -/
theorem C9_noop_data_occurrence
    (hook : StacksChainhookSpecification) (matching_txid : String)
    (txs : List StacksTransactionData) (b : StacksBlockData)
    (rollback : List (List StacksTransactionData × StacksBlockData))
    (hpred : hook.predicate = .txidEquals matching_txid)
    (hact : hook.action = .noop) :
    ∃ payload, handle_stacks_hook_action ⟨hook, [(txs, b)], rollback⟩ =
        some (.data payload) ∧
      payload.apply.length = 1 ∧
      payload.apply.head?.map (fun entry => entry.block_identifier.hash) =
        some b.block_identifier.hash := by
  refine ⟨stacks_occurrence_payload ⟨hook, [(txs, b)], rollback⟩, ?_, ?_, ?_⟩
  · simp [handle_stacks_hook_action, hact]
  · simp [stacks_occurrence_payload]
  · simp [stacks_occurrence_payload]

theorem C9_witness :
    txid_noop_hook.predicate =
      .txidEquals "0xb92c2ade84a8b85f4c72170680ae42e65438aea4db72ba4b2d6a6960f4141ce8" ∧
    txid_noop_hook.action = .noop ∧
    ∃ payload, handle_stacks_hook_action
        ⟨txid_noop_hook, [([contract_call_tx], contract_call_block)], []⟩ =
        some (.data payload) ∧
      payload.apply.length = 1 ∧
      payload.apply.head?.map (fun entry => entry.block_identifier.hash) =
        some contract_call_block.block_identifier.hash :=
  ⟨rfl, rfl,
    C9_noop_data_occurrence txid_noop_hook
      "0xb92c2ade84a8b85f4c72170680ae42e65438aea4db72ba4b2d6a6960f4141ce8"
      [contract_call_tx] contract_call_block [] rfl rfl⟩

/-! ### Driver helper lemmas -/

theorem scan_reduces_to_range (env : ScanEnv)
    (full : BitcoinChainhookFullSpecification) (network : BitcoinNetwork)
    (spec : BitcoinChainhookSpecification) (s e : Nat)
    (hclient : env.clientOk = true)
    (hproj : full.into_selected_network_specification network = .ok spec)
    (hstart : spec.start_block = some s) (hend : spec.end_block = some e) :
    scan_bitcoin_chain_with_predicate env full network =
      scan_with_range env spec s e := by
  rw [scan_bitcoin_chain_with_predicate, hclient, hproj]
  simp only [hstart, hend, Bool.not_true]
  rfl

theorem ordinal_setup_not_ordinal (env : ScanEnv)
    (spec : BitcoinChainhookSpecification) (e : Nat)
    (h : ∀ op, spec.predicate ≠ .protocol (.ordinal op)) :
    ordinal_setup env spec e = ⟨[], false, false⟩ := by
  rw [ordinal_setup]
  cases hp : spec.predicate with
  | block => rfl
  | txid t => rfl
  | protocol p =>
    cases p with
    | ordinal op => exact absurd hp (h op)

theorem ordinal_setup_ordinal (env : ScanEnv)
    (spec : BitcoinChainhookSpecification) (e : Nat) (op : OrdinalOperations)
    (hp : spec.predicate = .protocol (.ordinal op)) :
    ordinal_setup env spec e =
      if env.openReadonlyOk then
        ⟨env.inscriptionsInitial, true, !env.hasCompactedBlockAt e⟩
      else ⟨[], true, false⟩ := by
  rw [ordinal_setup, hp]

theorem process_block_ordinary_hash_failed (env : ScanEnv)
    (specs : List BitcoinChainhookSpecification) (c : Nat)
    (h : env.fetchHash c = none) :
    process_block_ordinary env specs c =
      (.failed (.rpcBlockHashError c), [.fetchBlockHash c]) := by
  simp [process_block_ordinary, h]

theorem process_block_ordinary_breakdown_failed (env : ScanEnv)
    (specs : List BitcoinChainhookSpecification) (c : Nat) (bh : String)
    (h1 : env.fetchHash c = some bh) (h2 : env.fetchBreakdown bh = none) :
    process_block_ordinary env specs c =
      (.failed (.rpcBlockBreakdownError c),
       [.fetchBlockHash c, .fetchBlockBreakdown c]) := by
  simp [process_block_ordinary, h1, h2]

theorem process_block_ordinary_standardize_failed (env : ScanEnv)
    (specs : List BitcoinChainhookSpecification) (c : Nat) (bh : String)
    (bd : BitcoinBlockBreakdown) (msg : String)
    (h1 : env.fetchHash c = some bh) (h2 : env.fetchBreakdown bh = some bd)
    (h3 : env.standardize bd = .error msg) :
    process_block_ordinary env specs c =
      (.failed (.blockStandardizationError msg),
       [.fetchBlockHash c, .fetchBlockBreakdown c, .standardizeBlock c]) := by
  simp [process_block_ordinary, h1, h2, h3]

theorem process_block_ordinary_ok_calls (env : ScanEnv)
    (specs : List BitcoinChainhookSpecification) (c k : Nat)
    (h : (process_block_ordinary env specs c).1 = .ok k) :
    (process_block_ordinary env specs c).2 =
      [.fetchBlockHash c, .fetchBlockBreakdown c, .standardizeBlock c,
       .evaluateBlock c] := by
  rcases hfh : env.fetchHash c with _ | bh
  · simp [process_block_ordinary, hfh] at h
  · rcases hbd : env.fetchBreakdown bh with _ | bd
    · simp [process_block_ordinary, hfh, hbd] at h
    · rcases hstd : env.standardize bd with msg | blk
      · simp [process_block_ordinary, hfh, hbd, hstd] at h
      · rcases hex : execute_predicates_action env.handleAction
            (env.evaluate (.chainUpdatedWithBlocks ⟨[blk], []⟩) specs)
            with _ | nn
        · simp [process_block_ordinary, hfh, hbd, hstd, hex] at h
        · simp [process_block_ordinary, hfh, hbd, hstd, hex]

theorem scan_loop_ordinary_ok_mem (env : ScanEnv)
    (specs : List BitcoinChainhookSpecification) :
    ∀ (cursors : List Nat) (bs acc m n : Nat),
      (scan_loop_ordinary env specs cursors bs acc).1 = .ok m n →
      ∀ c ∈ cursors,
        ScanCall.fetchBlockHash c ∈ (scan_loop_ordinary env specs cursors bs acc).2 ∧
        ScanCall.fetchBlockBreakdown c ∈ (scan_loop_ordinary env specs cursors bs acc).2 ∧
        ScanCall.standardizeBlock c ∈ (scan_loop_ordinary env specs cursors bs acc).2 ∧
        ScanCall.evaluateBlock c ∈ (scan_loop_ordinary env specs cursors bs acc).2 := by
  intro cursors
  induction cursors with
  | nil => intro bs acc m n _ c hc; exact absurd hc (List.not_mem_nil c)
  | cons c0 rest ih =>
    intro bs acc m n hok c hc
    rcases hp : process_block_ordinary env specs c0 with ⟨out, calls⟩
    cases out with
    | failed err =>
      rw [scan_loop_ordinary, hp] at hok
      exact absurd hok (by simp)
    | panicked =>
      rw [scan_loop_ordinary, hp] at hok
      exact absurd hok (by simp)
    | ok k =>
      have hcalls : calls =
          [.fetchBlockHash c0, .fetchBlockBreakdown c0, .standardizeBlock c0,
           .evaluateBlock c0] := by
        have := process_block_ordinary_ok_calls env specs c0 k (by rw [hp])
        rw [hp] at this
        exact this
      rw [scan_loop_ordinary, hp] at hok ⊢
      simp only at hok ⊢
      rcases List.mem_cons.mp hc with hc0 | hcrest
      · subst hc0
        refine ⟨?_, ?_, ?_, ?_⟩ <;>
          · apply List.mem_append_left
            rw [hcalls]
            simp
      · have := ih (bs + 1) (acc + k) m n hok c hcrest
        refine ⟨?_, ?_, ?_, ?_⟩ <;>
          · apply List.mem_append_right
            tauto

theorem scan_loop_ordinary_first_failure (env : ScanEnv)
    (specs : List BitcoinChainhookSpecification) :
    ∀ (L1 : List Nat) (h : Nat) (L2 : List Nat) (err : ScanError) (bs acc : Nat),
      (∀ c ∈ L1, ∃ a, (process_block_ordinary env specs c).1 = .ok a) →
      (process_block_ordinary env specs h).1 = .failed err →
      (scan_loop_ordinary env specs (L1 ++ h :: L2) bs acc).1 = .failed err := by
  intro L1
  induction L1 with
  | nil =>
    intro h L2 err bs acc _ hfail
    rcases hp : process_block_ordinary env specs h with ⟨out, calls⟩
    have hout : out = .failed err := by rw [hp] at hfail; exact hfail
    subst hout
    rw [List.nil_append, scan_loop_ordinary, hp]
  | cons c0 L1' ih =>
    intro h L2 err bs acc hall hfail
    obtain ⟨a, ha⟩ := hall c0 (List.mem_cons_self c0 L1')
    rcases hp : process_block_ordinary env specs c0 with ⟨out, calls⟩
    have hout : out = .ok a := by rw [hp] at ha; exact ha
    subst hout
    rw [List.cons_append, scan_loop_ordinary, hp]
    simp only
    exact ih h L2 err (bs + 1) (acc + a)
      (fun c hc => hall c (List.mem_cons_of_mem c0 hc)) hfail

theorem process_block_ordinal_fetch_mem (env : ScanEnv)
    (specs : List BitcoinChainhookSpecification)
    (tr : List (String × TraversalResult)) (st : OrdinalStorage) (c : Nat) :
    ScanCall.fetchBlockHash c ∈ (process_block_ordinal env specs tr st c).2 := by
  rcases hfh : env.fetchHash c with _ | bh
  · simp [process_block_ordinal, hfh]
  · rcases hbd : env.fetchBreakdown bh with _ | bd
    · simp [process_block_ordinal, hfh, hbd]
    · rcases hstd : env.standardize bd with msg | blk
      · simp [process_block_ordinal, hfh, hbd, hstd]
      · rcases hex : execute_predicates_action env.handleAction
            (env.evaluate (.chainUpdatedWithBlocks
              ⟨[(env.augmentTransfer (env.augmentReveal blk st tr).1
                  (env.augmentReveal blk st tr).2).1], []⟩) specs)
            with _ | nn
        · simp [process_block_ordinal, hfh, hbd, hstd, hex]
        · simp [process_block_ordinal, hfh, hbd, hstd, hex]

theorem process_block_ordinal_calls_shape (env : ScanEnv)
    (specs : List BitcoinChainhookSpecification)
    (tr : List (String × TraversalResult)) (st : OrdinalStorage) (c : Nat) :
    ∀ x ∈ (process_block_ordinal env specs tr st c).2,
      x = .fetchBlockHash c ∨ x = .fetchBlockBreakdown c ∨
      x = .standardizeBlock c ∨ x = .evaluateBlock c := by
  rcases hfh : env.fetchHash c with _ | bh
  · simp [process_block_ordinal, hfh]
  · rcases hbd : env.fetchBreakdown bh with _ | bd
    · simp [process_block_ordinal, hfh, hbd]
    · rcases hstd : env.standardize bd with msg | blk
      · simp only [process_block_ordinal, hfh, hbd, hstd]
        intro x hx
        simp at hx
        tauto
      · rcases hex : execute_predicates_action env.handleAction
            (env.evaluate (.chainUpdatedWithBlocks
              ⟨[(env.augmentTransfer (env.augmentReveal blk st tr).1
                  (env.augmentReveal blk st tr).2).1], []⟩) specs)
            with _ | nn
        · simp only [process_block_ordinal, hfh, hbd, hstd, hex]
          intro x hx
          simp at hx
          tauto
        · simp only [process_block_ordinal, hfh, hbd, hstd, hex]
          intro x hx
          simp at hx
          tauto

theorem process_block_ordinal_fetch_height (env : ScanEnv)
    (specs : List BitcoinChainhookSpecification)
    (tr : List (String × TraversalResult)) (st : OrdinalStorage) (c h : Nat)
    (hx : ScanCall.fetchBlockHash h ∈ (process_block_ordinal env specs tr st c).2) :
    h = c := by
  rcases process_block_ordinal_calls_shape env specs tr st c _ hx with
    h1 | h1 | h1 | h1 <;> first
  | exact ScanCall.fetchBlockHash.inj h1
  | exact absurd h1 (by simp)

theorem process_block_ordinal_no_fac (env : ScanEnv)
    (specs : List BitcoinChainhookSpecification)
    (tr : List (String × TraversalResult)) (st : OrdinalStorage)
    (c a b n : Nat)
    (hx : ScanCall.fetchAndCacheBlocks a b n ∈
      (process_block_ordinal env specs tr st c).2) : False := by
  rcases process_block_ordinal_calls_shape env specs tr st c _ hx with
    h1 | h1 | h1 | h1 <;> exact absurd h1 (by simp)

theorem scan_loop_ordinal_mem_sound (env : ScanEnv)
    (specs : List BitcoinChainhookSpecification) (s e : Nat) :
    ∀ (cache : InscriptionsCache) (tr : List (String × TraversalResult))
      (st : OrdinalStorage) (bs acc h : Nat),
      ScanCall.fetchBlockHash h ∈
        (scan_loop_ordinal env specs s e cache tr st bs acc).2 →
      s ≤ h ∧ h ≤ e ∧ h ∈ cache.map Prod.fst := by
  intro cache
  induction cache with
  | nil => intro tr st bs acc h hmem; exact absurd hmem (by simp [scan_loop_ordinal])
  | cons entry rest ih =>
    rcases entry with ⟨cursor, loc⟩
    intro tr st bs acc h hmem
    by_cases hskip : (cursor < s || e < cursor) = true
    · rw [scan_loop_ordinal] at hmem
      rw [if_pos hskip] at hmem
      have := ih tr st bs acc h hmem
      exact ⟨this.1, this.2.1, by simp [this.2.2]⟩
    · rw [scan_loop_ordinal] at hmem
      rw [if_neg hskip] at hmem
      have hrange : s ≤ cursor ∧ cursor ≤ e := by
        simp only [Bool.or_eq_true, decide_eq_true_eq] at hskip
        push_neg at hskip
        omega
      rcases hp : process_block_ordinal env specs (tr ++ loc) st cursor
        with ⟨⟨out, st2⟩, calls⟩
      cases out with
      | failed err =>
        rw [hp] at hmem
        simp only at hmem
        have hh : h = cursor := by
          apply process_block_ordinal_fetch_height env specs (tr ++ loc) st cursor h
          rw [hp]; exact hmem
        subst hh
        exact ⟨hrange.1, hrange.2, by simp⟩
      | panicked =>
        rw [hp] at hmem
        simp only at hmem
        have hh : h = cursor := by
          apply process_block_ordinal_fetch_height env specs (tr ++ loc) st cursor h
          rw [hp]; exact hmem
        subst hh
        exact ⟨hrange.1, hrange.2, by simp⟩
      | ok k =>
        rw [hp] at hmem
        simp only at hmem
        rcases List.mem_append.mp hmem with hc | hc
        · have hh : h = cursor := by
            apply process_block_ordinal_fetch_height env specs (tr ++ loc) st cursor h
            rw [hp]; exact hc
          subst hh
          exact ⟨hrange.1, hrange.2, by simp⟩
        · have := ih (tr ++ loc) st2 (bs + 1) (acc + k) h hc
          exact ⟨this.1, this.2.1, by simp [this.2.2]⟩

theorem scan_loop_ordinal_ok_mem (env : ScanEnv)
    (specs : List BitcoinChainhookSpecification) (s e : Nat) :
    ∀ (cache : InscriptionsCache) (tr : List (String × TraversalResult))
      (st : OrdinalStorage) (bs acc m n : Nat),
      (scan_loop_ordinal env specs s e cache tr st bs acc).1 = .ok m n →
      ∀ entry ∈ cache, s ≤ entry.1 → entry.1 ≤ e →
        ScanCall.fetchBlockHash entry.1 ∈
          (scan_loop_ordinal env specs s e cache tr st bs acc).2 := by
  intro cache
  induction cache with
  | nil => intro tr st bs acc m n _ entry hentry; exact absurd hentry (by simp)
  | cons head rest ih =>
    rcases head with ⟨cursor, loc⟩
    intro tr st bs acc m n hok entry hentry hs he
    by_cases hskip : (cursor < s || e < cursor) = true
    · rw [scan_loop_ordinal] at hok ⊢
      rw [if_pos hskip] at hok ⊢
      rcases List.mem_cons.mp hentry with hent | hent
      · exfalso
        simp only [Bool.or_eq_true, decide_eq_true_eq] at hskip
        rw [hent] at hs he
        simp only at hs he
        omega
      · exact ih tr st bs acc m n hok entry hent hs he
    · rw [scan_loop_ordinal] at hok ⊢
      rw [if_neg hskip] at hok ⊢
      rcases hp : process_block_ordinal env specs (tr ++ loc) st cursor
        with ⟨⟨out, st2⟩, calls⟩
      cases out with
      | failed err =>
        rw [hp] at hok
        exact absurd hok (by simp)
      | panicked =>
        rw [hp] at hok
        exact absurd hok (by simp)
      | ok k =>
        rw [hp] at hok
        simp only at hok ⊢
        rcases List.mem_cons.mp hentry with hent | hent
        · apply List.mem_append_left
          rw [hent]
          simp only
          have := process_block_ordinal_fetch_mem env specs (tr ++ loc) st cursor
          rw [hp] at this
          exact this
        · apply List.mem_append_right
          have hok2 : (scan_loop_ordinal env specs s e rest (tr ++ loc) st2
              (bs + 1) (acc + k)).1 = RunResult.ok m n := hok
          exact ih (tr ++ loc) st2 (bs + 1) (acc + k) m n hok2 entry hent hs he

theorem scan_loop_ordinal_no_fac (env : ScanEnv)
    (specs : List BitcoinChainhookSpecification) (s e : Nat) :
    ∀ (cache : InscriptionsCache) (tr : List (String × TraversalResult))
      (st : OrdinalStorage) (bs acc a b n : Nat),
      ScanCall.fetchAndCacheBlocks a b n ∈
        (scan_loop_ordinal env specs s e cache tr st bs acc).2 → False := by
  intro cache
  induction cache with
  | nil => intro tr st bs acc a b n hmem; exact absurd hmem (by simp [scan_loop_ordinal])
  | cons head rest ih =>
    rcases head with ⟨cursor, loc⟩
    intro tr st bs acc a b n hmem
    by_cases hskip : (cursor < s || e < cursor) = true
    · rw [scan_loop_ordinal] at hmem
      rw [if_pos hskip] at hmem
      exact ih tr st bs acc a b n hmem
    · rw [scan_loop_ordinal] at hmem
      rw [if_neg hskip] at hmem
      rcases hp : process_block_ordinal env specs (tr ++ loc) st cursor
        with ⟨⟨out, st2⟩, calls⟩
      cases out with
      | failed err =>
        rw [hp] at hmem
        simp only at hmem
        apply process_block_ordinal_no_fac env specs (tr ++ loc) st cursor a b n
        rw [hp]; exact hmem
      | panicked =>
        rw [hp] at hmem
        simp only at hmem
        apply process_block_ordinal_no_fac env specs (tr ++ loc) st cursor a b n
        rw [hp]; exact hmem
      | ok k =>
        rw [hp] at hmem
        simp only at hmem
        rcases List.mem_append.mp hmem with hc | hc
        · apply process_block_ordinal_no_fac env specs (tr ++ loc) st cursor a b n
          rw [hp]; exact hc
        · exact ih (tr ++ loc) st2 (bs + 1) (acc + k) a b n hc

theorem scan_with_range_not_ordinal (env : ScanEnv)
    (spec : BitcoinChainhookSpecification) (s e : Nat)
    (hnotord : ∀ op, spec.predicate ≠ .protocol (.ordinal op)) :
    scan_with_range env spec s e =
      scan_loop_ordinary env [spec] (List.range' s (e + 1 - s)) 0 0 := by
  rw [scan_with_range, ordinal_setup_not_ordinal env spec e hnotord]
  rfl

theorem scan_with_range_ordinal_cached (env : ScanEnv)
    (spec : BitcoinChainhookSpecification) (s e : Nat) (op : OrdinalOperations)
    (hord : spec.predicate = .protocol (.ordinal op))
    (hro : env.openReadonlyOk = true)
    (hne : env.inscriptionsInitial ≠ []) :
    scan_with_range env spec s e =
      scan_loop_ordinal env [spec] s e env.inscriptionsInitial [] [] 0 0 := by
  have hie : env.inscriptionsInitial.isEmpty = false := by
    cases hi : env.inscriptionsInitial with
    | nil => exact absurd hi hne
    | cons a l => rfl
  rw [scan_with_range, ordinal_setup_ordinal env spec e op hord, hro]
  simp only [if_true, ordinal_catchup, hie, Bool.and_false, Bool.false_eq_true,
    if_false, hro, Bool.not_true]
  rfl

/-! ### C1: range coverage of the replay loop -/

/-- C1 counterexample: with an ordinal-aware predicate over `[5, 6]` and an
inscription cache holding an entry only at height 5, the scan completes
(`ok`, one block scanned) yet never fetches the block hash of height 6, so a
height inside `[start_block, end_block]` is skipped in ordinal-aware mode. -/
theorem C1_counterexample :
    sample_ordinal_spec.predicate = .protocol (.ordinal .inscriptionFeed) ∧
    sample_ordinal_spec.start_block = some 5 ∧
    sample_ordinal_spec.end_block = some 6 ∧
    (scan_bitcoin_chain_with_predicate c1_env sample_ordinal_full .mainnet).1 =
      .ok 1 0 ∧
    ScanCall.fetchBlockHash 6 ∉
      (scan_bitcoin_chain_with_predicate c1_env sample_ordinal_full .mainnet).2 := by
  decide

/-- C1 amended: when the scan completes, in ordinary mode every height of
`[start_block, end_block]` goes through the full pipeline (hash fetch,
breakdown fetch, standardisation, single-block evaluation); in ordinal-aware
mode (readable, non-empty, up-to-date cache) the heights fetched are exactly
the heights carrying an entry of the inscription cache within
`[start_block, end_block]` — heights without an inscription entry are
skipped. -/
theorem C1_amended_scan_coverage (env : ScanEnv)
    (full : BitcoinChainhookFullSpecification) (network : BitcoinNetwork)
    (spec : BitcoinChainhookSpecification) (s e m n : Nat)
    (hclient : env.clientOk = true)
    (hproj : full.into_selected_network_specification network = .ok spec)
    (hstart : spec.start_block = some s)
    (hend : spec.end_block = some e)
    (hok : (scan_bitcoin_chain_with_predicate env full network).1 = .ok m n) :
    ((∀ op, spec.predicate ≠ .protocol (.ordinal op)) →
      ∀ h, s ≤ h → h ≤ e →
        ScanCall.fetchBlockHash h ∈
          (scan_bitcoin_chain_with_predicate env full network).2 ∧
        ScanCall.fetchBlockBreakdown h ∈
          (scan_bitcoin_chain_with_predicate env full network).2 ∧
        ScanCall.standardizeBlock h ∈
          (scan_bitcoin_chain_with_predicate env full network).2 ∧
        ScanCall.evaluateBlock h ∈
          (scan_bitcoin_chain_with_predicate env full network).2) ∧
    ((spec.predicate = .protocol (.ordinal .inscriptionFeed)) →
      env.openReadonlyOk = true → env.inscriptionsInitial ≠ [] →
      ∀ h, ScanCall.fetchBlockHash h ∈
          (scan_bitcoin_chain_with_predicate env full network).2 ↔
        (s ≤ h ∧ h ≤ e ∧ h ∈ env.inscriptionsInitial.map Prod.fst)) := by
  have hred := scan_reduces_to_range env full network spec s e hclient hproj
    hstart hend
  rw [hred] at hok ⊢
  constructor
  · intro hnotord h hsh hhe
    rw [scan_with_range_not_ordinal env spec s e hnotord] at hok ⊢
    have hmem : h ∈ List.range' s (e + 1 - s) := by
      rw [List.mem_range'_1]
      omega
    exact scan_loop_ordinary_ok_mem env [spec] (List.range' s (e + 1 - s))
      0 0 m n hok h hmem
  · intro hord hro hne h
    rw [scan_with_range_ordinal_cached env spec s e .inscriptionFeed hord hro hne]
      at hok ⊢
    constructor
    · intro hmem
      exact scan_loop_ordinal_mem_sound env [spec] s e env.inscriptionsInitial
        [] [] 0 0 h hmem
    · rintro ⟨hsh, hhe, hkey⟩
      rcases List.mem_map.mp hkey with ⟨entry, hentry, hfst⟩
      have := scan_loop_ordinal_ok_mem env [spec] s e env.inscriptionsInitial
        [] [] 0 0 m n hok entry hentry (by omega) (by omega)
      rw [hfst] at this
      exact this

theorem C1_witness :
    base_oracles_env.clientOk = true ∧
    sample_txid_full.into_selected_network_specification .mainnet =
      .ok sample_txid_spec ∧
    sample_txid_spec.start_block = some 2 ∧
    sample_txid_spec.end_block = some 3 ∧
    (scan_bitcoin_chain_with_predicate base_oracles_env sample_txid_full
      .mainnet).1 = .ok 2 0 ∧
    ScanCall.fetchBlockHash 3 ∈
      (scan_bitcoin_chain_with_predicate base_oracles_env sample_txid_full
        .mainnet).2 :=
  ⟨rfl, rfl, rfl, rfl, by decide,
    (((C1_amended_scan_coverage base_oracles_env sample_txid_full .mainnet
          sample_txid_spec 2 3 2 0 rfl rfl rfl rfl (by decide)).1
        (fun op => by cases op; decide)) 3 (by decide) (by decide)).1⟩

/-! ### C2: the catch-up condition -/

theorem scan_with_range_ordinal_noro (env : ScanEnv)
    (spec : BitcoinChainhookSpecification) (s e : Nat) (op : OrdinalOperations)
    (hord : spec.predicate = .protocol (.ordinal op))
    (hro : env.openReadonlyOk = false) :
    scan_with_range env spec s e = (.failed .cacheReadOpenError, []) := by
  rw [scan_with_range, ordinal_setup_ordinal env spec e op hord, hro]
  rfl

theorem scan_with_range_ordinal_fresh_uptodate (env : ScanEnv)
    (spec : BitcoinChainhookSpecification) (s e : Nat) (op : OrdinalOperations)
    (hord : spec.predicate = .protocol (.ordinal op))
    (hro : env.openReadonlyOk = true)
    (hemp : env.inscriptionsInitial = [])
    (hcomp : env.hasCompactedBlockAt e = true) :
    scan_with_range env spec s e = (.ok 0 0, []) := by
  rw [scan_with_range, ordinal_setup_ordinal env spec e op hord, hro, hemp, hcomp]
  rfl

theorem ordinal_catchup_stale (env : ScanEnv) (e : Nat)
    (hro : env.openReadonlyOk = true)
    (hemp : env.inscriptionsInitial = [])
    (hcomp : env.hasCompactedBlockAt e = false) :
    ordinal_catchup env
        ⟨env.inscriptionsInitial, true, !env.hasCompactedBlockAt e⟩ e =
      if env.latestCompactedKnown < e then
        if !env.openReadwriteOk then (.error .cacheWriteOpenError, [])
        else if !env.fetchAndCacheOk then
          (.error .fetchAndCacheError,
           [.fetchAndCacheBlocks env.latestCompactedKnown e 8])
        else (.ok env.inscriptionsAfterCatchup,
          [.fetchAndCacheBlocks env.latestCompactedKnown e 8])
      else (.ok [], []) := by
  rw [hemp, hcomp, ordinal_catchup, hro]
  rfl

/-- C2 counterexample: an ordinal-aware scan over `[5, 6]` whose cache is
missing the compacted block at `end_block = 6` but whose inscription table is
non-empty does not switch to catch-up: the run completes without any
`fetch_and_cache` invocation. -/
theorem C2_counterexample :
    c2_env.hasCompactedBlockAt 6 = false ∧
    sample_ordinal_spec.end_block = some 6 ∧
    (scan_bitcoin_chain_with_predicate c2_env sample_ordinal_full .mainnet).1 =
      .ok 1 0 ∧
    ((scan_bitcoin_chain_with_predicate c2_env sample_ordinal_full .mainnet).2.all
      fun call => match call with
        | .fetchAndCacheBlocks _ _ _ => false
        | _ => true) = true := by
  decide

theorem ordinal_setup_ordinal_ro (env : ScanEnv)
    (spec : BitcoinChainhookSpecification) (e : Nat) (op : OrdinalOperations)
    (hp : spec.predicate = .protocol (.ordinal op))
    (hro : env.openReadonlyOk = true) :
    ordinal_setup env spec e =
      ⟨env.inscriptionsInitial, true, !env.hasCompactedBlockAt e⟩ := by
  rw [ordinal_setup, hp, hro]
  rfl

theorem scan_with_range_ordinal_stale_rwfail (env : ScanEnv)
    (spec : BitcoinChainhookSpecification) (s e : Nat) (op : OrdinalOperations)
    (hord : spec.predicate = .protocol (.ordinal op))
    (hro : env.openReadonlyOk = true)
    (hemp : env.inscriptionsInitial = [])
    (hcomp : env.hasCompactedBlockAt e = false)
    (hlt : env.latestCompactedKnown < e)
    (hrw : env.openReadwriteOk = false) :
    scan_with_range env spec s e = (.failed .cacheWriteOpenError, []) := by
  rw [scan_with_range, ordinal_setup_ordinal_ro env spec e op hord hro,
    ordinal_catchup_stale env e hro hemp hcomp, if_pos hlt, hrw]
  rfl

theorem scan_with_range_ordinal_stale_fcfail (env : ScanEnv)
    (spec : BitcoinChainhookSpecification) (s e : Nat) (op : OrdinalOperations)
    (hord : spec.predicate = .protocol (.ordinal op))
    (hro : env.openReadonlyOk = true)
    (hemp : env.inscriptionsInitial = [])
    (hcomp : env.hasCompactedBlockAt e = false)
    (hlt : env.latestCompactedKnown < e)
    (hrw : env.openReadwriteOk = true)
    (hfc : env.fetchAndCacheOk = false) :
    scan_with_range env spec s e =
      (.failed .fetchAndCacheError,
       [.fetchAndCacheBlocks env.latestCompactedKnown e 8]) := by
  rw [scan_with_range, ordinal_setup_ordinal_ro env spec e op hord hro,
    ordinal_catchup_stale env e hro hemp hcomp, if_pos hlt, hrw, hfc]
  rfl

theorem scan_with_range_ordinal_stale_catchup (env : ScanEnv)
    (spec : BitcoinChainhookSpecification) (s e : Nat) (op : OrdinalOperations)
    (hord : spec.predicate = .protocol (.ordinal op))
    (hro : env.openReadonlyOk = true)
    (hemp : env.inscriptionsInitial = [])
    (hcomp : env.hasCompactedBlockAt e = false)
    (hlt : env.latestCompactedKnown < e)
    (hrw : env.openReadwriteOk = true)
    (hfc : env.fetchAndCacheOk = true) :
    scan_with_range env spec s e =
      ((scan_loop_ordinal env [spec] s e env.inscriptionsAfterCatchup
          [] [] 0 0).1,
       .fetchAndCacheBlocks env.latestCompactedKnown e 8 ::
         (scan_loop_ordinal env [spec] s e env.inscriptionsAfterCatchup
           [] [] 0 0).2) := by
  rw [scan_with_range, ordinal_setup_ordinal_ro env spec e op hord hro,
    ordinal_catchup_stale env e hro hemp hcomp, if_pos hlt, hrw, hfc, hro]
  rfl

theorem scan_with_range_ordinal_stale_uptodate (env : ScanEnv)
    (spec : BitcoinChainhookSpecification) (s e : Nat) (op : OrdinalOperations)
    (hord : spec.predicate = .protocol (.ordinal op))
    (hro : env.openReadonlyOk = true)
    (hemp : env.inscriptionsInitial = [])
    (hcomp : env.hasCompactedBlockAt e = false)
    (hlt : ¬ env.latestCompactedKnown < e) :
    scan_with_range env spec s e = (.ok 0 0, []) := by
  rw [scan_with_range, ordinal_setup_ordinal_ro env spec e op hord hro,
    ordinal_catchup_stale env e hro hemp hcomp, if_neg hlt, hro]
  rfl

/-- C2 amended: in ordinal-aware replay the fetch-and-cache pipeline is
invoked exactly when, in addition to the compacted block at `end_block` being
absent, the cache opened read-only AND its inscription table is empty AND the
latest known compacted height lies below `end_block` AND the read-write
handle opens; the invocation runs from the latest known compacted height to
`end_block` with a fixed fan-out of 8 concurrent downloads. -/
theorem C2_amended_catchup_condition (env : ScanEnv)
    (full : BitcoinChainhookFullSpecification) (network : BitcoinNetwork)
    (spec : BitcoinChainhookSpecification) (s e : Nat)
    (hclient : env.clientOk = true)
    (hproj : full.into_selected_network_specification network = .ok spec)
    (hstart : spec.start_block = some s)
    (hend : spec.end_block = some e)
    (hord : spec.predicate = .protocol (.ordinal .inscriptionFeed))
    (a b c : Nat) :
    ScanCall.fetchAndCacheBlocks a b c ∈
        (scan_bitcoin_chain_with_predicate env full network).2 ↔
      (env.openReadonlyOk = true ∧ env.inscriptionsInitial = [] ∧
       env.hasCompactedBlockAt e = false ∧ env.latestCompactedKnown < e ∧
       env.openReadwriteOk = true ∧
       a = env.latestCompactedKnown ∧ b = e ∧ c = 8) := by
  rw [scan_reduces_to_range env full network spec s e hclient hproj hstart hend]
  by_cases hro : env.openReadonlyOk = true
  · cases hi : env.inscriptionsInitial with
    | cons x xs =>
      rw [scan_with_range_ordinal_cached env spec s e .inscriptionFeed hord hro
        (by rw [hi]; exact fun hcon => List.noConfusion hcon)]
      constructor
      · intro hmem
        exact absurd hmem (fun hm =>
          scan_loop_ordinal_no_fac env [spec] s e env.inscriptionsInitial
            [] [] 0 0 a b c hm)
      · rintro ⟨-, hemp, -⟩
        exact List.noConfusion hemp
    | nil =>
      by_cases hcomp : env.hasCompactedBlockAt e = true
      · rw [scan_with_range_ordinal_fresh_uptodate env spec s e .inscriptionFeed
          hord hro hi hcomp]
        constructor
        · intro hmem
          exact absurd hmem (List.not_mem_nil _)
        · rintro ⟨-, -, hcf, -⟩
          rw [hcomp] at hcf
          exact Bool.noConfusion hcf
      · have hcomp2 : env.hasCompactedBlockAt e = false := by
          cases hc : env.hasCompactedBlockAt e
          · rfl
          · exact absurd hc hcomp
        by_cases hlt : env.latestCompactedKnown < e
        · by_cases hrw : env.openReadwriteOk = true
          · by_cases hfc : env.fetchAndCacheOk = true
            · rw [scan_with_range_ordinal_stale_catchup env spec s e
                .inscriptionFeed hord hro hi hcomp2 hlt hrw hfc]
              constructor
              · intro hmem
                rcases List.mem_cons.mp hmem with hm2 | hm
                · rcases ScanCall.fetchAndCacheBlocks.inj hm2 with ⟨ha, hb, hc⟩
                  exact ⟨hro, rfl, hcomp2, hlt, hrw, ha, hb, hc⟩
                · exact absurd hm (fun hm2 =>
                    scan_loop_ordinal_no_fac env [spec] s e
                      env.inscriptionsAfterCatchup [] [] 0 0 a b c hm2)
              · rintro ⟨-, -, -, -, -, ha, hb, hc⟩
                subst ha; subst hb; subst hc
                exact List.mem_cons_self _ _
            · have hfc2 : env.fetchAndCacheOk = false := by
                cases hf : env.fetchAndCacheOk
                · rfl
                · exact absurd hf hfc
              rw [scan_with_range_ordinal_stale_fcfail env spec s e
                .inscriptionFeed hord hro hi hcomp2 hlt hrw hfc2]
              constructor
              · intro hmem
                rcases List.mem_singleton.mp hmem with hm2
                rcases ScanCall.fetchAndCacheBlocks.inj hm2 with ⟨ha, hb, hc⟩
                exact ⟨hro, rfl, hcomp2, hlt, hrw, ha, hb, hc⟩
              · rintro ⟨-, -, -, -, -, ha, hb, hc⟩
                subst ha; subst hb; subst hc
                exact List.mem_singleton.mpr rfl
          · have hrw2 : env.openReadwriteOk = false := by
              cases hw : env.openReadwriteOk
              · rfl
              · exact absurd hw hrw
            rw [scan_with_range_ordinal_stale_rwfail env spec s e
              .inscriptionFeed hord hro hi hcomp2 hlt hrw2]
            constructor
            · intro hmem
              exact absurd hmem (List.not_mem_nil _)
            · rintro ⟨-, -, -, -, hwct, -⟩
              exact absurd hwct hrw
        · rw [scan_with_range_ordinal_stale_uptodate env spec s e
            .inscriptionFeed hord hro hi hcomp2 hlt]
          constructor
          · intro hmem
            exact absurd hmem (List.not_mem_nil _)
          · rintro ⟨-, -, -, hltc, -⟩
            exact absurd hltc hlt
  · have hro2 : env.openReadonlyOk = false := by
      cases hr : env.openReadonlyOk
      · rfl
      · exact absurd hr hro
    rw [scan_with_range_ordinal_noro env spec s e .inscriptionFeed hord hro2]
    constructor
    · intro hmem
      exact absurd hmem (List.not_mem_nil _)
    · rintro ⟨hroc, -⟩
      exact absurd hroc hro

theorem C2_witness :
    c2_catchup_env.clientOk = true ∧
    c2_catchup_env.inscriptionsInitial = [] ∧
    c2_catchup_env.hasCompactedBlockAt 6 = false ∧
    c2_catchup_env.latestCompactedKnown = 2 ∧
    ScanCall.fetchAndCacheBlocks 2 6 8 ∈
      (scan_bitcoin_chain_with_predicate c2_catchup_env sample_ordinal_full
        .mainnet).2 :=
  ⟨rfl, rfl, rfl, rfl,
    (C2_amended_catchup_condition c2_catchup_env sample_ordinal_full .mainnet
        sample_ordinal_spec 5 6 rfl rfl rfl rfl rfl 2 6 8).mpr
      ⟨rfl, rfl, rfl, by decide, rfl, rfl, rfl, rfl⟩⟩

/-! ### C4: dispatch failures are non-fatal -/

theorem execute_predicates_action_loop_count
    (handle : BitcoinTriggerChainhook → Except String BitcoinChainhookOccurrence) :
    ∀ (hits : List BitcoinTriggerChainhook) (acc n : Nat),
      execute_predicates_action_loop handle acc hits = some n →
      n = acc + (hits.filter fun h => (handle h).isOk).length := by
  intro hits
  induction hits with
  | nil =>
    intro acc n h
    rw [execute_predicates_action_loop] at h
    rcases Option.some.inj h with rfl
    simp
  | cons hit rest ih =>
    intro acc n h
    rcases hh : handle hit with msg | occ
    · rw [execute_predicates_action_loop, hh] at h
      rw [ih acc n h, List.filter_cons]
      simp [hh, Except.isOk, Except.toBool]
    · cases occ with
      | http req =>
        rw [execute_predicates_action_loop, hh] at h
        rw [ih (acc + 1) n h, List.filter_cons]
        simp only [hh, Except.isOk, Except.toBool, if_true, List.length_cons]
        omega
      | file p b =>
        rw [execute_predicates_action_loop, hh] at h
        rw [ih (acc + 1) n h, List.filter_cons]
        simp only [hh, Except.isOk, Except.toBool, if_true, List.length_cons]
        omega
      | data p =>
        rw [execute_predicates_action_loop, hh] at h
        exact absurd h (by simp)

/-- C4: an action-handling failure for a single trigger is non-fatal: the hit
is skipped, all subsequent hits are still processed, and the returned
`actions_triggered` count reflects the per-hit outcomes — it equals the
number of hits whose action compiled successfully, failures contributing
nothing rather than aborting. -/
theorem C4_dispatch_failure_nonfatal
    (handle : BitcoinTriggerChainhook → Except String BitcoinChainhookOccurrence)
    (hit : BitcoinTriggerChainhook) (rest : List BitcoinTriggerChainhook)
    (msg : String) (hfail : handle hit = .error msg) :
    execute_predicates_action handle (hit :: rest) =
      execute_predicates_action handle rest ∧
    (∀ hits n, execute_predicates_action handle hits = some n →
      n = (hits.filter fun h => (handle h).isOk).length) := by
  constructor
  · rw [execute_predicates_action, execute_predicates_action,
      execute_predicates_action_loop, hfail]
  · intro hits n h
    simpa using execute_predicates_action_loop_count handle hits 0 n h

theorem C4_witness :
    failing_handle bad_hit = .error "unable to handle action" ∧
    execute_predicates_action failing_handle [bad_hit, good_hit] =
      execute_predicates_action failing_handle [good_hit] ∧
    execute_predicates_action failing_handle [bad_hit, good_hit] = some 1 :=
  ⟨rfl,
    (C4_dispatch_failure_nonfatal failing_handle bad_hit [good_hit]
      "unable to handle action" rfl).1,
    by decide⟩

/-! ### C5: per-block errors abort the scan -/

/-- C5: in the replay loop, once every height before `h` has processed
successfully, a block-hash fetch whose retries exhaust at `h`, a breakdown
fetch whose retries exhaust at `h`, or a standardisation failure at `h` each
abort the whole scan with the corresponding typed error (the hash/breakdown
errors carry the failing height); the block is not skipped and no later
height is processed into an `ok` result. -/
theorem C5_per_block_errors_abort (env : ScanEnv)
    (full : BitcoinChainhookFullSpecification) (network : BitcoinNetwork)
    (spec : BitcoinChainhookSpecification) (s e h : Nat)
    (hclient : env.clientOk = true)
    (hproj : full.into_selected_network_specification network = .ok spec)
    (hstart : spec.start_block = some s)
    (hend : spec.end_block = some e)
    (hnotord : ∀ op, spec.predicate ≠ .protocol (.ordinal op))
    (hsh : s ≤ h) (hhe : h ≤ e)
    (hprev : ∀ c, s ≤ c → c < h →
      ∃ a, (process_block_ordinary env [spec] c).1 = .ok a) :
    (env.fetchHash h = none →
      (scan_bitcoin_chain_with_predicate env full network).1 =
        .failed (.rpcBlockHashError h)) ∧
    (∀ bh, env.fetchHash h = some bh → env.fetchBreakdown bh = none →
      (scan_bitcoin_chain_with_predicate env full network).1 =
        .failed (.rpcBlockBreakdownError h)) ∧
    (∀ bh bd msg, env.fetchHash h = some bh → env.fetchBreakdown bh = some bd →
      env.standardize bd = .error msg →
      (scan_bitcoin_chain_with_predicate env full network).1 =
        .failed (.blockStandardizationError msg)) := by
  have hred := scan_reduces_to_range env full network spec s e hclient hproj
    hstart hend
  have hrange : List.range' s (e + 1 - s) =
      List.range' s (h - s) ++ h :: List.range' (h + 1) (e - h) := by
    have h1 : e + 1 - s = (e - h + 1) + (h - s) := by omega
    have h2 : s + (h - s) = h := by omega
    rw [h1, ← List.range'_append_1 s (h - s) (e - h + 1), h2, List.range'_succ]
  have hpre : ∀ c ∈ List.range' s (h - s),
      ∃ a, (process_block_ordinary env [spec] c).1 = .ok a := by
    intro c hc
    rw [List.mem_range'_1] at hc
    exact hprev c hc.1 (by omega)
  have hmain : ∀ err, (process_block_ordinary env [spec] h).1 = .failed err →
      (scan_bitcoin_chain_with_predicate env full network).1 = .failed err := by
    intro err hfail
    rw [hred, scan_with_range_not_ordinal env spec s e hnotord, hrange]
    exact scan_loop_ordinary_first_failure env [spec] (List.range' s (h - s)) h
      (List.range' (h + 1) (e - h)) err 0 0 hpre hfail
  refine ⟨?_, ?_, ?_⟩
  · intro hfh
    exact hmain _ (by rw [process_block_ordinary_hash_failed env [spec] h hfh])
  · intro bh h1 h2
    exact hmain _
      (by rw [process_block_ordinary_breakdown_failed env [spec] h bh h1 h2])
  · intro bh bd msg h1 h2 h3
    exact hmain _
      (by rw [process_block_ordinary_standardize_failed env [spec] h bh bd msg
        h1 h2 h3])

theorem C5_witness :
    c5_env.fetchHash 3 = none ∧
    (scan_bitcoin_chain_with_predicate c5_env sample_txid_full .mainnet).1 =
      .failed (.rpcBlockHashError 3) :=
  ⟨by decide,
    (C5_per_block_errors_abort c5_env sample_txid_full .mainnet
        sample_txid_spec 2 3 3 rfl rfl rfl rfl
        (fun op => by cases op; decide) (by decide) (by decide)
        (fun c h1 h2 => ⟨0, by
          have hc : c = 2 := by omega
          subst hc
          decide⟩)).1 (by decide)⟩

/-! ### C6: configuration errors precede any block fetch -/

/-- C6: with a working RPC client, a full specification with no entry for the
configured network fails with the missing-network error, and a projected
specification without `start_block` fails with the missing-start-block error —
in both cases with an empty call trace, so before any block is fetched; an
absent `end_block` does not fail but resolves from the chain tip and the scan
proceeds exactly as if `end_block` were the tip. -/
theorem C6_config_errors_before_fetch (env : ScanEnv)
    (full : BitcoinChainhookFullSpecification) (network : BitcoinNetwork)
    (spec : BitcoinChainhookSpecification) (s t : Nat)
    (hclient : env.clientOk = true) :
    (full.networks.lookup network = none →
      scan_bitcoin_chain_with_predicate env full network =
        (.failed (.missingNetworkSpecification network), [])) ∧
    (full.into_selected_network_specification network = .ok spec →
      spec.start_block = none →
      scan_bitcoin_chain_with_predicate env full network =
        (.failed .missingStartBlock, [])) ∧
    (full.into_selected_network_specification network = .ok spec →
      spec.start_block = some s → spec.end_block = none →
      env.chainTip = some t →
      scan_bitcoin_chain_with_predicate env full network =
        scan_with_range env spec s t) := by
  refine ⟨?_, ?_, ?_⟩
  · intro hlook
    rw [scan_bitcoin_chain_with_predicate, hclient]
    simp only [BitcoinChainhookFullSpecification.into_selected_network_specification,
      hlook, Bool.not_true]
    rfl
  · intro hproj hstart
    rw [scan_bitcoin_chain_with_predicate, hclient, hproj]
    simp only [hstart, Bool.not_true]
    rfl
  · intro hproj hstart hend htip
    rw [scan_bitcoin_chain_with_predicate, hclient, hproj]
    simp only [hstart, hend, htip, Bool.not_true]
    rfl

theorem C6_witness :
    base_oracles_env.clientOk = true ∧
    empty_full.networks.lookup BitcoinNetwork.mainnet = none ∧
    scan_bitcoin_chain_with_predicate base_oracles_env empty_full .mainnet =
      (.failed (.missingNetworkSpecification .mainnet), []) :=
  ⟨rfl, rfl,
    (C6_config_errors_before_fetch base_oracles_env empty_full .mainnet
      sample_txid_spec 0 0 rfl).1 rfl⟩

/-! ### C10: Data occurrences panic in the replay driver -/

/-- C10: a Bitcoin hook whose action is `Noop` compiles to a `Data`
occurrence, and `execute_predicates_action` hits the `unreachable!()` branch
(modelled as `none` / panic) on any such hit instead of returning; inside the
replay loop this surfaces as a panicked block outcome rather than a delivered
in-process data occurrence. -/
theorem C10_data_occurrence_panics
    (hit : BitcoinTriggerChainhook) (rest : List BitcoinTriggerChainhook)
    (hnoop : hit.action = .noop) :
    handle_bitcoin_hook_action hit = .ok (.data hit.chainhook_uuid) ∧
    execute_predicates_action handle_bitcoin_hook_action (hit :: rest) = none ∧
    (∀ (env : ScanEnv) (specs : List BitcoinChainhookSpecification)
      (cursor : Nat) (bh : String) (bd : BitcoinBlockBreakdown)
      (blk : BitcoinBlockData),
      env.handleAction = handle_bitcoin_hook_action →
      env.fetchHash cursor = some bh →
      env.fetchBreakdown bh = some bd →
      env.standardize bd = .ok blk →
      env.evaluate (.chainUpdatedWithBlocks ⟨[blk], []⟩) specs = hit :: rest →
      (process_block_ordinary env specs cursor).1 = .panicked) := by
  have hh : handle_bitcoin_hook_action hit = .ok (.data hit.chainhook_uuid) := by
    rw [handle_bitcoin_hook_action, hnoop]
  have hex : execute_predicates_action handle_bitcoin_hook_action
      (hit :: rest) = none := by
    rw [execute_predicates_action]
    simp only [execute_predicates_action_loop, hh]
  refine ⟨hh, hex, ?_⟩
  intro env specs cursor bh bd blk he hfh hbd hstd heval
  simp only [process_block_ordinary, hfh, hbd, hstd, he, heval, hex]

theorem C10_witness :
    noop_hit.action = .noop ∧
    execute_predicates_action handle_bitcoin_hook_action [noop_hit] = none :=
  ⟨rfl, (C10_data_occurrence_panics noop_hit [] rfl).2.1⟩

end Chainhook
